import Mathlib

/-!
# Verification of the google-docs-mcp batch-mutation engine

Shallow embedding of the index-consistent batch-mutation core of the
google-docs-mcp server: the table cell-edit request builders
(`src/tableHelpers.ts`), the snapshot undo/redo stacks
(`src/snapshotManager.ts`), the paragraph-batch restore/copy offset
arithmetic (`src/snapshotManager.ts`, `copy-doc.mjs`), and the multi-phase
markdown orchestrator (`src/server.ts`).

Modelling conventions:
* JavaScript numbers holding document character indices are modelled as
  `Int` (user-supplied indices can be negative); style magnitudes are
  modelled as `Int` (no claim depends on fractional point sizes).
* Optional / possibly-`undefined` fields are `Option`; JS truthiness tests
  on strings are modelled as `≠ ""` where the source relies on them.
* Thrown `UserError`s are modelled with `Except String`; the error value
  is the exact message string built by the source.
* Remote I/O (`docs.documents.get`, `batchUpdate`) is factored out: the
  pure request-building logic is embedded directly and the remote calls
  appear as oracle parameters where a claim needs them.
* `Array.prototype.sort` with a numeric comparator is a stable sort with
  respect to the comparator's total preorder, so its output is the unique
  stable sorted permutation; it is modelled by `List.insertionSort`, which
  is also stable and places ties in original order.
-/

namespace GDocs

/-- Sparse style-attribute record (`TextStyleArgs` in `src/types.ts` as consumed
by `tableHelpers.ts` and `snapshotManager.ts`). An attribute is present only
when it deviates from the default. -/
structure TextStyleArgs where
  bold : Option Bool := none
  italic : Option Bool := none
  underline : Option Bool := none
  strikethrough : Option Bool := none
  foregroundColor : Option String := none
  backgroundColor : Option String := none
  fontSize : Option Int := none
  fontFamily : Option String := none
  linkUrl : Option String := none
deriving Repr, DecidableEq, Inhabited

/-- Google Docs API `TextStyle` as read from a document. `rgbColor` records are
modelled by their hex rendering (the float arithmetic of `rgbToHex` is outside
the claims; `foregroundColor`/`backgroundColor` hold the hex string that
`rgbToHex` would produce when the nested `rgbColor` is present).
`fontSize`/`weightedFontFamily`/`link` are flattened to the one field the
source reads from each. -/
structure TextStyle where
  bold : Option Bool := none
  italic : Option Bool := none
  underline : Option Bool := none
  strikethrough : Option Bool := none
  foregroundColor : Option String := none
  backgroundColor : Option String := none
  fontSize : Option Int := none
  fontFamily : Option String := none
  linkUrl : Option String := none
deriving Repr, DecidableEq, Inhabited

/-- Google Docs API `TextRun`. -/
structure TextRun where
  content : Option String := none
  textStyle : Option TextStyle := none
deriving Repr, DecidableEq, Inhabited

/-- Google Docs API `InlineObjectElement`. -/
structure InlineObjectElement where
  inlineObjectId : Option String := none
deriving Repr, DecidableEq, Inhabited

/-- Google Docs API `ParagraphElement`: either a text run or an inline object. -/
structure ParagraphElement where
  textRun : Option TextRun := none
  inlineObjectElement : Option InlineObjectElement := none
deriving Repr, DecidableEq, Inhabited

/-- Google Docs API `ParagraphStyle` (only the field the source reads). -/
structure ParagraphStyle where
  namedStyleType : Option String := none
deriving Repr, DecidableEq, Inhabited

/-- Google Docs API `Paragraph`. -/
structure Paragraph where
  elements : Option (List ParagraphElement) := none
  paragraphStyle : Option ParagraphStyle := none
deriving Repr, DecidableEq, Inhabited

/-- A structural element inside a table cell. The source code only ever reads
`paragraph` (plus the indices) from cell content, so nested tables are not
modelled inside cells. -/
structure CellContentElement where
  startIndex : Option Int := none
  endIndex : Option Int := none
  paragraph : Option Paragraph := none
deriving Repr, DecidableEq, Inhabited

/-- Google Docs API `TableCell`. -/
structure TableCell where
  content : Option (List CellContentElement) := none
deriving Repr, DecidableEq, Inhabited

/-- Google Docs API `TableRow`. -/
structure TableRow where
  tableCells : Option (List TableCell) := none
deriving Repr, DecidableEq, Inhabited

/-- Google Docs API `Table`. -/
structure Table where
  tableRows : Option (List TableRow) := none
  rows : Option Int := none
  columns : Option Int := none
deriving Repr, DecidableEq, Inhabited

/-- Top-level structural element of a document body. -/
structure StructuralElement where
  startIndex : Option Int := none
  endIndex : Option Int := none
  paragraph : Option Paragraph := none
  table : Option Table := none
  sectionBreak : Bool := false
deriving Repr, DecidableEq, Inhabited

/-- Image metadata for inline objects (`size.width.magnitude` /
`size.height.magnitude`, flattened). -/
structure ObjSize where
  width : Option Int := none
  height : Option Int := none
deriving Repr, DecidableEq, Inhabited

/-- Google Docs API `ImageProperties` (the two URI fields the source reads). -/
structure ImageProperties where
  contentUri : Option String := none
  sourceUri : Option String := none
deriving Repr, DecidableEq, Inhabited

/-- Google Docs API `EmbeddedObject`. -/
structure EmbeddedObject where
  imageProperties : Option ImageProperties := none
  size : Option ObjSize := none
deriving Repr, DecidableEq, Inhabited

/-- Google Docs API `InlineObjectProperties`. -/
structure InlineObjectProperties where
  embeddedObject : Option EmbeddedObject := none
deriving Repr, DecidableEq, Inhabited

/-- Google Docs API `InlineObject`. -/
structure InlineObject where
  inlineObjectProperties : Option InlineObjectProperties := none
deriving Repr, DecidableEq, Inhabited

/-- The document's inline-object table (`Record<string, InlineObject>`),
modelled as an association list. -/
abbrev InlineObjects : Type := List (String × InlineObject)

/-- A Google Docs batch-update request, restricted to the variants the
embedded builders emit. The optional `tabId` location field is omitted: it is
passed through verbatim and affects no index computation. -/
inductive Request where
  | insertText (index : Int) (text : String)
  | deleteContentRange (startIndex endIndex : Int)
  | insertInlineImage (index : Int) (uri : String) (width height : Option Int)
  | updateTextStyle (startIndex endIndex : Int) (style : TextStyleArgs)
  | updateParagraphStyle (startIndex endIndex : Int) (namedStyleType : String)
  | insertTable (index : Int) (rows columns : Int)
deriving Repr, DecidableEq, Inhabited

/-! ## `src/tableHelpers.ts` — table sub-engine -/

/-- Source `extractTableElements`: all body elements that carry a table. -/
def extractTableElements (bodyContent : List StructuralElement) : List StructuralElement :=
  bodyContent.filter (fun el => el.table.isSome)

/-- Error message built by `getTableElement` for an out-of-range table index. -/
def tableIndexErrMsg (tableIndex : Int) (numTables : Nat) : String :=
  "Table index " ++ toString tableIndex ++ " out of range. Document has "
    ++ toString numTables ++ " table(s) (0-indexed)."

/-- Source `getTableElement`: 0-based table lookup, throwing `UserError` when the
index is out of range. -/
def getTableElement (bodyContent : List StructuralElement) (tableIndex : Int) :
    Except String StructuralElement :=
  let tables := extractTableElements bodyContent
  if tableIndex < 0 ∨ tableIndex ≥ (tables.length : Int) then
    .error (tableIndexErrMsg tableIndex tables.length)
  else
    .ok (tables.getD tableIndex.toNat default)

/-- Error message built by `getCellElement` for an out-of-range row. The
source reports `tableRows?.length ?? 0` as the bound. -/
def rowErrMsg (row : Int) (numRows : Nat) : String :=
  "Row " ++ toString row ++ " out of range. Table has " ++ toString numRows
    ++ " rows (0-indexed)."

/-- Error message built by `getCellElement` for an out-of-range column. -/
def colErrMsg (col : Int) (row : Int) (numCols : Nat) : String :=
  "Column " ++ toString col ++ " out of range. Row " ++ toString row ++ " has "
    ++ toString numCols ++ " columns (0-indexed)."

/-- Number of rows a table reports in the bounds-check error
(`tableRows?.length ?? 0`). -/
def tableNumRows (table : Table) : Nat :=
  (table.tableRows.map List.length).getD 0

/-- Number of columns a row reports in the bounds-check error
(`tableCells?.length ?? 0`). -/
def rowNumCols (tr : TableRow) : Nat :=
  (tr.tableCells.map List.length).getD 0

/-- The row of a table selected by `getCellElement` after its bounds check. -/
def tableRowAt (table : Table) (row : Int) : TableRow :=
  (table.tableRows.getD []).getD row.toNat default

/-- Source `getCellElement`: validates row/col bounds against the live structure and
throws `UserError` on out-of-range. -/
def getCellElement (table : Table) (row col : Int) : Except String TableCell :=
  if table.tableRows.isNone ∨ row < 0 ∨ row ≥ (tableNumRows table : Int) then
    .error (rowErrMsg row (tableNumRows table))
  else
    let tr := tableRowAt table row
    if tr.tableCells.isNone ∨ col < 0 ∨ col ≥ (rowNumCols tr : Int) then
      .error (colErrMsg col row (rowNumCols tr))
    else
      .ok ((tr.tableCells.getD []).getD col.toNat default)

/-- A half-open text range `{ startIndex, endIndex }` inside a cell. -/
structure TextIndexRange where
  startIndex : Int
  endIndex : Int
deriving Repr, DecidableEq, Inhabited

/-- A cell-content paragraph qualifies as text-bearing when it has at least one
text run whose content is truthy and not solely the structural newline
(`pe.textRun?.content && pe.textRun.content !== '\n'`). -/
def elementHasTextRun (contentEl : CellContentElement) : Bool :=
  match contentEl.paragraph with
  | none => false
  | some para =>
    match para.elements with
    | none => false
    | some elems =>
      elems.any fun pe =>
        match pe.textRun with
        | some tr =>
          match tr.content with
          | some c => c ≠ "" && c ≠ "\n"
          | none => false
        | none => false

/-- The range `getCellTextRanges` would emit for one content element: present
only when the paragraph is text-bearing and `endIndex - 1 > startIndex` (the
trailing structural newline is kept for structural integrity). -/
def textRangeOfElement (contentEl : CellContentElement) : Option TextIndexRange :=
  if elementHasTextRun contentEl then
    let pStart := contentEl.startIndex.getD 0
    let pEnd := (contentEl.endIndex.getD pStart) - 1
    if pEnd > pStart then some ⟨pStart, pEnd⟩ else none
  else none

/-- Source `getCellTextRanges`: the text-only ranges of a cell, skipping paragraphs
that contain only inline images (or no qualifying text run at all). -/
def getCellTextRanges (cell : TableCell) : List TextIndexRange :=
  (cell.content.getD []).filterMap textRangeOfElement

/-- Source `getCellInsertionPoint`: the startIndex of the first content element;
throws when the cell has no content elements. -/
def getCellInsertionPoint (cell : TableCell) : Except String Int :=
  match cell.content with
  | none => .error "Cell has no content elements."
  | some [] => .error "Cell has no content elements."
  | some (first :: _) => .ok (first.startIndex.getD 0)

/-- The descending-by-startIndex sort used before emitting deletes
(`[...textRanges].sort((a, b) => b.startIndex - a.startIndex)`, a stable sort,
hence modelled by the stable `List.insertionSort`). -/
def sortRangesDesc (ranges : List TextIndexRange) : List TextIndexRange :=
  ranges.insertionSort (fun a b => b.startIndex ≤ a.startIndex)

/-- The fold computing the lowest original start offset
(`textRanges.reduce((min, r) => Math.min(min, r.startIndex), Infinity)`).
The `Infinity` seed only matters for an empty list, and the source consults
the fold only after ruling that case out, so the model folds from the first
element's startIndex. -/
def minStartFrom (init : Int) (ranges : List TextIndexRange) : Int :=
  ranges.foldl (fun m r => min m r.startIndex) init

/-- Source `buildEditCellRequests`: replace the text of one cell, preserving inline
images: one delete per text-bearing range in descending startIndex order, then
one insert of the new text at the lowest original start offset (guarded by
`if (newText)`, so an empty replacement emits no insert); a cell with no
text-bearing range gets only an insert at its first-content offset. -/
def buildEditCellRequests (bodyContent : List StructuralElement)
    (tableIndex row col : Int) (newText : String) : Except String (List Request) :=
  match getTableElement bodyContent tableIndex with
  | .error e => .error e
  | .ok tableEl =>
    -- source: `tableEl.table!` — never null, `extractTableElements` kept only
    -- elements with a table
    match getCellElement (tableEl.table.getD default) row col with
    | .error e => .error e
    | .ok cell =>
      match getCellTextRanges cell with
      | [] =>
        match getCellInsertionPoint cell with
        | .error e => .error e
        | .ok insertPoint => .ok [Request.insertText insertPoint newText]
      | r0 :: rest =>
        let deletes := (sortRangesDesc (r0 :: rest)).map fun r =>
          Request.deleteContentRange r.startIndex r.endIndex
        if newText = "" then .ok deletes
        else .ok (deletes ++ [Request.insertText (minStartFrom r0.startIndex rest) newText])

/-- One `{row, col, text}` entry of a batch cell edit. -/
structure CellEdit where
  row : Int
  col : Int
  text : String
deriving Repr, DecidableEq, Inhabited

/-- A per-cell request group of `buildBatchEditCellRequests`, tagged with its
sort index (the cell's computed insertion offset). -/
structure CellGroup where
  sortIndex : Int
  requests : List Request
deriving Repr, DecidableEq, Inhabited

/-- The per-cell body of the `buildBatchEditCellRequests` loop: each cell's
delete/insert requests computed independently of every other edit, with the
group's sort index set to the computed insertion offset. Both inserts are
guarded by `if (edit.text)`. -/
def buildCellGroup (table : Table) (edit : CellEdit) : Except String CellGroup :=
  match getCellElement table edit.row edit.col with
  | .error e => .error e
  | .ok cell =>
    match getCellTextRanges cell with
    | [] =>
      match getCellInsertionPoint cell with
      | .error e => .error e
      | .ok insertPoint =>
        if edit.text = "" then .ok ⟨insertPoint, []⟩
        else .ok ⟨insertPoint, [Request.insertText insertPoint edit.text]⟩
    | r0 :: rest =>
      let deletes := (sortRangesDesc (r0 :: rest)).map fun r =>
        Request.deleteContentRange r.startIndex r.endIndex
      let insertPoint := minStartFrom r0.startIndex rest
      if edit.text = "" then .ok ⟨insertPoint, deletes⟩
      else .ok ⟨insertPoint, deletes ++ [Request.insertText insertPoint edit.text]⟩

/-- The descending sort of whole cell groups
(`cellGroups.sort((a, b) => b.sortIndex - a.sortIndex)`, stable). -/
def sortGroupsDesc (groups : List CellGroup) : List CellGroup :=
  groups.insertionSort (fun a b => b.sortIndex ≤ a.sortIndex)

/-- The `for (const edit of edits)` loop of `buildBatchEditCellRequests`: one
group per edit, each computed by `buildCellGroup` from that edit alone; a
thrown bounds error aborts the whole build. -/
def buildCellGroups (table : Table) : List CellEdit → Except String (List CellGroup)
  | [] => .ok []
  | e :: rest =>
    match buildCellGroup table e with
    | .error err => .error err
    | .ok g =>
      match buildCellGroups table rest with
      | .error err => .error err
      | .ok gs => .ok (g :: gs)

/-- Source `buildBatchEditCellRequests`: per-cell groups built independently, sorted
by descending sort index as whole groups, then flattened. -/
def buildBatchEditCellRequests (bodyContent : List StructuralElement)
    (tableIndex : Int) (edits : List CellEdit) : Except String (List Request) :=
  match getTableElement bodyContent tableIndex with
  | .error e => .error e
  | .ok tableEl =>
    match buildCellGroups (tableEl.table.getD default) edits with
    | .error e => .error e
    | .ok cellGroups =>
      .ok ((sortGroupsDesc cellGroups).map (fun g => g.requests)).flatten

/-! ## Formatted-run model shared by `snapshotManager.ts`, `tableHelpers.ts`
and `copy-doc.mjs` -/

/-- Source `FormattedRun`: text plus an optional sparse style record. -/
structure FormattedRun where
  text : String
  style : Option TextStyleArgs := none
deriving Repr, DecidableEq, Inhabited

/-- Source `ImageInfo & { offset }`: an image anchored at a character offset within
its owning paragraph. -/
structure PositionedImage where
  uri : String
  width : Option Int := none
  height : Option Int := none
  offset : Nat
deriving Repr, DecidableEq, Inhabited

/-- Source `ParagraphContent` (`snapshotManager.ts`): the extracted runs, positioned
images and optional named style of one paragraph. -/
structure ParagraphContent where
  runs : List FormattedRun
  imageInfo : List PositionedImage
  namedStyle : Option String := none
deriving Repr, DecidableEq, Inhabited

/-- True when at least one attribute of the sparse record is present, i.e. the
style deviates from the default in some attribute. -/
def hasAnyStyleAttr (s : TextStyleArgs) : Bool :=
  s.bold.isSome || s.italic.isSome || s.underline.isSome || s.strikethrough.isSome ||
  s.foregroundColor.isSome || s.backgroundColor.isSome || s.fontSize.isSome ||
  s.fontFamily.isSome || s.linkUrl.isSome

/-- The style-normalization chain shared by `extractParagraphFormattedContent`
(`snapshotManager.ts` lines 106-133), `extractFormattedCellContent`
(`tableHelpers.ts`) and `extractParagraphRuns` (`copy-doc.mjs`): each guard
copies one deviating attribute and sets `hasStyle`. JS truthiness of
`ts?.bold` etc. is `= some true`; of `fontSize?.magnitude` is a nonzero
magnitude; of the string fields a nonempty string; a black foreground hex is
normalized away. Returns the sparse record and the `hasStyle` flag. -/
def extractRunStyle (ts : Option TextStyle) : TextStyleArgs × Bool :=
  match ts with
  | none => ({}, false)
  | some t =>
    let style : TextStyleArgs := {
      bold := if t.bold = some true then some true else none
      italic := if t.italic = some true then some true else none
      underline := if t.underline = some true then some true else none
      strikethrough := if t.strikethrough = some true then some true else none
      foregroundColor :=
        match t.foregroundColor with
        | some hex => if hex ≠ "#000000" then some hex else none
        | none => none
      backgroundColor := t.backgroundColor
      fontSize :=
        match t.fontSize with
        | some m => if m ≠ 0 then some m else none
        | none => none
      fontFamily :=
        match t.fontFamily with
        | some f => if f ≠ "" then some f else none
        | none => none
      linkUrl :=
        match t.linkUrl with
        | some u => if u ≠ "" then some u else none
        | none => none }
    (style, hasAnyStyleAttr style)

/-- Resolves one inline object reference to its image URI
(`contentUri ?? sourceUri`) and size. -/
def resolveInlineImage (inlineObjects : InlineObjects) (objId : String) :
    Option (String × Option Int × Option Int) :=
  match inlineObjects.lookup objId with
  | none => none
  | some obj =>
    match obj.inlineObjectProperties with
    | none => none
    | some props =>
      match props.embeddedObject with
      | none => none
      | some embeddedObj =>
        let uri :=
          match embeddedObj.imageProperties with
          | none => none
          | some ip =>
            match ip.contentUri with
            | some u => some u
            | none => ip.sourceUri
        match uri with
        | none => none
        | some u =>
          if u = "" then none  -- `if (uri)`: empty string is falsy
          else
            let size := embeddedObj.size
            some (u, (size.bind ObjSize.width), (size.bind ObjSize.height))

/-- The truthy inline-object id of an element, when the image branch of the
walk is taken (`if (pe.inlineObjectElement?.inlineObjectId)`; an empty id is
falsy and falls through to the text-run check). -/
def imageBranchId (pe : ParagraphElement) : Option String :=
  match pe.inlineObjectElement with
  | some ioe =>
    match ioe.inlineObjectId with
    | some objId => if objId = "" then none else some objId
    | none => none
  | none => none

/-- The truthy text-run content of an element, when the text branch of the
walk is taken (`if (pe.textRun?.content)`). -/
def textBranchContent (pe : ParagraphElement) : Option String :=
  match pe.textRun with
  | some tr =>
    match tr.content with
    | some c => if c = "" then none else some c
    | none => none
  | none => none

/-- The element walk of `extractParagraphFormattedContent`
(`snapshotManager.ts` lines 78-138): inline-object elements with a truthy id
record a positioned image at the running text offset; text runs are stripped
of a trailing newline, dropped when empty, and carry a style record only when
`hasStyle`. -/
def extractParaElements (inlineObjects : InlineObjects) :
    List ParagraphElement → Nat → List FormattedRun × List PositionedImage
  | [], _ => ([], [])
  | pe :: rest, textOffset =>
    match imageBranchId pe with
    | some objId =>
      let tl := extractParaElements inlineObjects rest textOffset
      match resolveInlineImage inlineObjects objId with
      | some (u, w, h) => (tl.1, ⟨u, w, h, textOffset⟩ :: tl.2)
      | none => tl
    | none =>
      match textBranchContent pe with
      | none => extractParaElements inlineObjects rest textOffset
      | some c0 =>
        let c := if c0.endsWith "\n" then c0.dropRight 1 else c0
        if c = "" then extractParaElements inlineObjects rest textOffset
        else
          let sr := extractRunStyle (pe.textRun.bind TextRun.textStyle)
          let tl := extractParaElements inlineObjects rest (textOffset + c.length)
          (⟨c, if sr.2 then some sr.1 else none⟩ :: tl.1, tl.2)

/-- Source `extractParagraphFormattedContent`: runs, positioned images and the
paragraph's named style. -/
def extractParagraphFormattedContent (paragraph : Paragraph)
    (inlineObjects : InlineObjects) : ParagraphContent :=
  match paragraph.elements with
  | none => { runs := [], imageInfo := [], namedStyle := none }
  | some elems =>
    let (runs, imgs) := extractParaElements inlineObjects elems 0
    { runs := runs, imageInfo := imgs
      namedStyle := paragraph.paragraphStyle.bind ParagraphStyle.namedStyleType }

/-- Modelled from the spec: `buildUpdateTextStyleRequest` lives in
`src/googleDocsApiHelpers.ts`, which is not part of the repository snapshot
(only its callers are). Per the spec's idempotent empty-style elision property
("a run with all-default style attributes never produces a style-update
operation"), it returns a request exactly when the sparse record carries at
least one attribute, and `null` otherwise. -/
def buildUpdateTextStyleRequest (startIndex endIndex : Int) (style : TextStyleArgs) :
    Option Request :=
  if hasAnyStyleAttr style then some (.updateTextStyle startIndex endIndex style)
  else none

/-- The concatenated run text of one paragraph
(`pd.runs.map(r => r.text).join('')`). -/
def paraFullText (pd : ParagraphContent) : String :=
  String.join (pd.runs.map FormattedRun.text)

/-- The per-run style walk shared verbatim by `buildFormattedCellFormatRequests`
(`tableHelpers.ts` lines 709-725) and by the inner run loop of
`restoreParagraphBatch` / `copyParagraphBatch`: walk the runs accumulating the
offset, emitting `buildUpdateTextStyleRequest` for runs that carry a style
record and nonempty text. -/
def runStyleRequestsFrom : Int → List FormattedRun → List Request
  | _, [] => []
  | offset, run :: rest =>
    let runEnd := offset + (run.text.length : Int)
    let here :=
      match run.style with
      | some st =>
        if run.text.length > 0 then (buildUpdateTextStyleRequest offset runEnd st).toList
        else []
      | none => []
    here ++ runStyleRequestsFrom runEnd rest

/-- Source `buildFormattedCellFormatRequests`: updateTextStyle requests for the runs
inserted into a cell, starting at the cell's post-insertion start index. -/
def buildFormattedCellFormatRequests (cellStartIndex : Int) (runs : List FormattedRun) :
    List Request :=
  runStyleRequestsFrom cellStartIndex runs

/-- The paragraph start offsets computed by the phase-2 loops of
`restoreParagraphBatch` (`snapshotManager.ts` lines 255-287) and
`copyParagraphBatch` (`copy-doc.mjs` lines 232-266): the cursor starts at the
insert point and each block advances it by its concatenated run text length
plus one for the terminating newline. -/
def paragraphStartOffsets (insertPoint : Nat) : List ParagraphContent → List Nat
  | [] => []
  | pd :: rest =>
    insertPoint :: paragraphStartOffsets (insertPoint + (paraFullText pd).length + 1) rest

/-- The `updateParagraphStyle` requests of the phase-2 loop: one per block
whose named style is truthy and not `NORMAL_TEXT`, over the block's
`[start, start + textLen + 1)` range. -/
def paraStyleRequestsOf (offset : Nat) : List ParagraphContent → List Request
  | [] => []
  | pd :: rest =>
    let paraEnd := offset + (paraFullText pd).length + 1
    let here :=
      match pd.namedStyle with
      | some st =>
        if st ≠ "" ∧ st ≠ "NORMAL_TEXT" then
          [Request.updateParagraphStyle (offset : Int) (paraEnd : Int) st]
        else []
      | none => []
    here ++ paraStyleRequestsOf paraEnd rest

/-- The `updateTextStyle` requests of the phase-2 loop: for each block, the
per-run walk starting at the block's start offset. -/
def runFormatRequestsOf (offset : Nat) : List ParagraphContent → List Request
  | [] => []
  | pd :: rest =>
    runStyleRequestsFrom (offset : Int) pd.runs
      ++ runFormatRequestsOf (offset + (paraFullText pd).length + 1) rest

/-- One pending image insertion of restore/copy phase 3: the recorded image
data plus its absolute offset `blockStartIndex + recordedInParagraphOffset`. -/
structure ImageInsert where
  uri : String
  width : Option Int := none
  height : Option Int := none
  offset : Nat
  index : Nat
deriving Repr, DecidableEq, Inhabited

/-- The flat image-insert list of phase 3, before sorting: every positioned
image of every block, at absolute offset block start + recorded offset. -/
def rawImageInserts (blocks : List (ParagraphContent × Nat)) : List ImageInsert :=
  (blocks.map (fun b =>
    b.1.imageInfo.map (fun img => ⟨img.uri, img.width, img.height, img.offset, b.2 + img.offset⟩))).flatten

/-- Phase 3 sorts the image inserts in reverse offset order
(`imageInserts.sort((a, b) => b.index - a.index)`, stable). -/
def sortedImageInserts (blocks : List (ParagraphContent × Nat)) : List ImageInsert :=
  (rawImageInserts blocks).insertionSort (fun a b => b.index ≤ a.index)

/-- The phase-3 insertion loop (`snapshotManager.ts` lines 308-327,
`copy-doc.mjs` lines 286-305): each image is its own one-request remote call;
a failure is caught (logged) and the loop continues with the remaining images.
The remote call is abstracted by the failure oracle `fails`; the result
records, in execution order, each attempted image and whether its call
succeeded. -/
def runImageInsertLoop (fails : ImageInsert → Bool) :
    List ImageInsert → List (ImageInsert × Bool)
  | [] => []
  | img :: rest => (img, fails img) :: runImageInsertLoop fails rest

/-! ## `src/snapshotManager.ts` — snapshot stacks -/

/-- A captured document snapshot. -/
structure DocumentSnapshot where
  id : String
  documentId : String
  timestamp : Int
  label : String
  body : List StructuralElement
  inlineObjects : List (String × InlineObject)
deriving Repr, DecidableEq, Inhabited

/-- The per-document pair of history stacks. Arrays are modelled with index 0
first: `push` appends, `pop` removes the last element, `shift` removes the
first. -/
structure SnapshotStack where
  undoStack : List DocumentSnapshot
  redoStack : List DocumentSnapshot
deriving Repr, DecidableEq, Inhabited

/-- Source `MAX_SNAPSHOTS = 10`. -/
def MAX_SNAPSHOTS : Nat := 10

/-- The eviction loop of `createSnapshot`
(`while (stack.undoStack.length > MAX_SNAPSHOTS) stack.undoStack.shift()`). -/
def evictOldest (l : List DocumentSnapshot) : List DocumentSnapshot :=
  if h : l.length > MAX_SNAPSHOTS then evictOldest l.tail else l
termination_by l.length
decreasing_by
  cases l with
  | nil => simp at h
  | cons a t => simp

/-- The stack mutation of `createSnapshot` (lines 470-477): push the captured
snapshot onto the undo stack, clear the redo stack (new change branch), evict
oldest entries beyond capacity. The remote capture itself is abstracted: the
snapshot value is a parameter. -/
def createSnapshotPure (stack : SnapshotStack) (snap : DocumentSnapshot) : SnapshotStack :=
  { undoStack := evictOldest (stack.undoStack ++ [snap]), redoStack := [] }

/-- Error message of `undoLastChange` on an empty undo stack. -/
def undoEmptyMsg : String :=
  "No snapshots available to undo. Create a snapshot before making changes."

/-- The stack mutation of `undoLastChange` (lines 486-519): fail on empty undo
stack; otherwise push the current live state (captured as `current`) onto the
redo stack and pop the most recent undo snapshot, which is then replayed.
Returns the new stacks and the popped snapshot. -/
def undoLastChangePure (stack : SnapshotStack) (current : DocumentSnapshot) :
    Except String (SnapshotStack × DocumentSnapshot) :=
  match stack.undoStack.getLast? with
  | none => .error undoEmptyMsg
  | some snapshot =>
    .ok ({ undoStack := stack.undoStack.dropLast
           redoStack := stack.redoStack ++ [current] }, snapshot)

/-- One entry of the `listSnapshots` result. -/
structure SnapshotEntry where
  id : String
  label : String
  timestamp : Int
  stack : String
deriving Repr, DecidableEq, Inhabited

/-- Source `listSnapshots` (lines 563-580): all undo entries followed by all redo
entries; a pure read of the stacks. -/
def listSnapshotsPure (stack : SnapshotStack) : List SnapshotEntry :=
  stack.undoStack.map (fun s => ⟨s.id, s.label, s.timestamp, "undo"⟩)
    ++ stack.redoStack.map (fun s => ⟨s.id, s.label, s.timestamp, "redo"⟩)

/-- The process-wide `snapshotStacks` map, keyed by document id
(association list; `Map.set` on a missing key appends). -/
abbrev StackMap : Type := List (String × SnapshotStack)

/-- Source `getStack`: return the document's stacks, initializing an empty pair in
the map when absent. -/
def getStack (m : StackMap) (documentId : String) : SnapshotStack × StackMap :=
  match m.lookup documentId with
  | some s => (s, m)
  | none => (⟨[], []⟩, m ++ [(documentId, ⟨[], []⟩)])

/-- Source `listSnapshots` at the map level: reads via `getStack` and builds the
entry list; the only map change is initializing an absent key to empty
stacks. -/
def listSnapshotsMap (m : StackMap) (documentId : String) :
    StackMap × List SnapshotEntry :=
  let r := getStack m documentId
  (r.2, listSnapshotsPure r.1)

/-! ## `src/server.ts` — markdown table fill and multi-phase orchestrator -/

/-- Source `PendingTableFill` (`src/markdownToGoogleDocs.ts`): the side-channel
record deferring cell population until the table exists remotely. -/
structure PendingTableFill where
  insertIndex : Int
  data : List (List String)
  rows : Int
  columns : Int
  hasBoldHeaders : Bool
deriving Repr, DecidableEq, Inhabited

/-- The tolerance-window predicate of `fillPendingTables` (lines 705-708): a
table element matches a pending fill when its startIndex is non-null and lies
in `[insertIndex - 1, insertIndex + rows * columns * 3]`. -/
def tableInWindow (fill : PendingTableFill) (t : StructuralElement) : Bool :=
  match t.startIndex with
  | some si =>
    fill.insertIndex - 1 ≤ si ∧ si ≤ fill.insertIndex + fill.rows * fill.columns * 3
  | none => false

/-- The table-locate step of Phase B: the first table element of the re-read
document whose startIndex falls in the fill's tolerance window. -/
def locatePendingTable (tables : List StructuralElement) (fill : PendingTableFill) :
    Option StructuralElement :=
  tables.find? (tableInWindow fill)

/-- The cell edits of one pending fill (lines 719-726): one `{row, col, text}`
edit per truthy (nonempty) cell of the row-major grid. -/
def fillEditsOf (fill : PendingTableFill) : List CellEdit :=
  (fill.data.enum.map (fun rc =>
    rc.2.enum.filterMap (fun cc =>
      if cc.2 = "" then none
      else some (⟨(rc.1 : Int), (cc.1 : Int), cc.2⟩ : CellEdit)))).flatten

/-- Outcome of one pending fill in the Phase-B loop. -/
inductive FillOutcome where
  | skipped (fill : PendingTableFill)
  | noEdits (tableIndex : Nat)
  | filled (tableIndex : Nat) (requests : List Request)
deriving Repr, DecidableEq, Inhabited

/-- The Phase-B loop of `fillPendingTables` (lines 703-771) over the document
body read once before the loop: a fill whose table cannot be located in the
tolerance window is skipped (a warning is logged) and the loop continues with
the remaining fills; a located fill with no nonempty cells is passed over; a
located fill otherwise builds its batch cell-edit requests (whose bounds
errors propagate, as a thrown `UserError` would). The bold-header pass and the
remote request execution are outside this pure model. -/
def processPendingFills (bodyContent : List StructuralElement) :
    List PendingTableFill → Except String (List FillOutcome)
  | [] => .ok []
  | fill :: rest =>
    let tables := extractTableElements bodyContent
    match locatePendingTable tables fill with
    | none =>
      (processPendingFills bodyContent rest).map (fun out => .skipped fill :: out)
    | some tableEl =>
      let tableIndex := tables.indexOf tableEl
      let edits := fillEditsOf fill
      if edits.isEmpty then
        (processPendingFills bodyContent rest).map (fun out => .noEdits tableIndex :: out)
      else do
        let requests ← buildBatchEditCellRequests bodyContent (tableIndex : Int) edits
        let out ← processPendingFills bodyContent rest
        return .filled tableIndex requests :: out

/-- The result of `convertMarkdownToRequestsWithTables`
(`src/markdownToGoogleDocs.ts`), as consumed by the orchestrator. -/
structure MarkdownConversionResult where
  requests : List Request
  pendingTableFills : List PendingTableFill
  postTableContent : Option String := none
deriving Repr, DecidableEq, Inhabited

/-- The recursion-limit error of `executeMarkdownWithTables`. -/
def recursionLimitMsg : String :=
  "Too many nested tables in markdown (max 10). Simplify the document."

/-- The multi-phase orchestrator `executeMarkdownWithTables` (lines 782-832),
with the converter abstracted as an oracle (its `startIndex`/`tabId`
arguments and the remote execution of the produced requests do not influence
the recursion structure; the between-phase document re-read always yields a
nonempty body, as every real document has at least one structural element).
Recurses into a new phase only when truthy (nonempty) `postTableContent`
remains; a call deeper than depth 10 raises the user-facing limit error. -/
def executeMarkdownWithTables (convert : String → MarkdownConversionResult)
    (markdown : String) (depth : Nat) : Except String (Nat × Nat) :=
  if depth > 10 then .error recursionLimitMsg
  else
    match (convert markdown).postTableContent with
    | none =>
      .ok ((convert markdown).requests.length, (convert markdown).pendingTableFills.length)
    | some post =>
      if post = "" then
        .ok ((convert markdown).requests.length, (convert markdown).pendingTableFills.length)
      else
        match executeMarkdownWithTables convert post (depth + 1) with
        | .error e => .error e
        | .ok (o, t) =>
          .ok ((convert markdown).requests.length + o,
               (convert markdown).pendingTableFills.length + t)
termination_by 11 - depth
decreasing_by omega

/-! ## Helper lemmas -/

/-- The comparator of every descending sort in the source is transitive. -/
instance : IsTrans TextIndexRange (fun a b => b.startIndex ≤ a.startIndex) :=
  ⟨fun _ _ _ h1 h2 => le_trans h2 h1⟩

instance : IsTotal TextIndexRange (fun a b => b.startIndex ≤ a.startIndex) :=
  ⟨fun a b => le_total b.startIndex a.startIndex⟩

instance : IsTrans CellGroup (fun a b => b.sortIndex ≤ a.sortIndex) :=
  ⟨fun _ _ _ h1 h2 => le_trans h2 h1⟩

instance : IsTotal CellGroup (fun a b => b.sortIndex ≤ a.sortIndex) :=
  ⟨fun a b => le_total b.sortIndex a.sortIndex⟩

instance : IsTrans ImageInsert (fun a b => b.index ≤ a.index) :=
  ⟨fun _ _ _ h1 h2 => le_trans h2 h1⟩

instance : IsTotal ImageInsert (fun a b => b.index ≤ a.index) :=
  ⟨fun a b => le_total b.index a.index⟩

theorem minStartFrom_le_init (init : Int) (l : List TextIndexRange) :
    minStartFrom init l ≤ init := by
  induction l generalizing init with
  | nil => exact le_refl _
  | cons r rest ih =>
    calc minStartFrom init (r :: rest) = minStartFrom (min init r.startIndex) rest := rfl
    _ ≤ min init r.startIndex := ih _
    _ ≤ init := min_le_left _ _

theorem minStartFrom_le_mem (init : Int) (l : List TextIndexRange) :
    ∀ r ∈ l, minStartFrom init l ≤ r.startIndex := by
  induction l generalizing init with
  | nil => intro r hr; cases hr
  | cons a rest ih =>
    intro r hr
    rcases List.mem_cons.mp hr with h | h
    · subst h
      calc minStartFrom init (r :: rest) = minStartFrom (min init r.startIndex) rest := rfl
      _ ≤ min init r.startIndex := minStartFrom_le_init _ _
      _ ≤ r.startIndex := min_le_right _ _
    · exact ih (min init a.startIndex) r h

theorem minStartFrom_mem (init : Int) (l : List TextIndexRange) :
    minStartFrom init l = init ∨ minStartFrom init l ∈ l.map TextIndexRange.startIndex := by
  induction l generalizing init with
  | nil => exact Or.inl rfl
  | cons a rest ih =>
    rcases ih (min init a.startIndex) with h | h
    · rcases min_cases init a.startIndex with ⟨he, _⟩ | ⟨he, _⟩
      · exact Or.inl (by simpa [minStartFrom, he] using h)
      · refine Or.inr ?_
        simp only [List.map_cons, List.mem_cons]
        exact Or.inl (by simpa [minStartFrom, he] using h)
    · exact Or.inr (by simp only [List.map_cons, List.mem_cons]; exact Or.inr h)

theorem buildCellGroups_ok_length (table : Table) :
    ∀ (l : List CellEdit) (out : List CellGroup),
      buildCellGroups table l = .ok out → out.length = l.length := by
  intro l
  induction l with
  | nil =>
    intro out h
    simp only [buildCellGroups] at h
    cases h
    rfl
  | cons a rest ih =>
    intro out h
    simp only [buildCellGroups] at h
    cases hf : buildCellGroup table a with
    | error e => simp only [hf] at h; exact Except.noConfusion h
    | ok b =>
      cases hrest : buildCellGroups table rest with
      | error e => simp only [hf, hrest] at h; exact Except.noConfusion h
      | ok bs =>
        simp only [hf, hrest, Except.ok.injEq] at h
        subst h
        simp [ih bs hrest]

theorem runImageInsertLoop_attempts_all (fails : ImageInsert → Bool) :
    ∀ l : List ImageInsert, (runImageInsertLoop fails l).map Prod.fst = l := by
  intro l
  induction l with
  | nil => rfl
  | cons img rest ih => simp [runImageInsertLoop, ih]

/-! ## Claim theorems -/

/-- Claim C3: Every table/row/column accessor validates the requested index
against the live structure and raises an "out of range" error that reports the
attempted index and the valid bound (never an `.ok` clamp or default cell):
an out-of-range table index yields the table-index message with the document's
table count; an out-of-range row yields the row message with the table's row
count; an out-of-range column (with the row in bounds) yields the column
message with that row's column count. -/
theorem accessors_raise_bounds_errors (bodyContent : List StructuralElement)
    (tableIndex : Int) (table : Table) (row col : Int) :
    ((tableIndex < 0 ∨ tableIndex ≥ ((extractTableElements bodyContent).length : Int)) →
      getTableElement bodyContent tableIndex =
        .error (tableIndexErrMsg tableIndex (extractTableElements bodyContent).length)) ∧
    ((table.tableRows = none ∨ row < 0 ∨ row ≥ (tableNumRows table : Int)) →
      getCellElement table row col = .error (rowErrMsg row (tableNumRows table))) ∧
    (table.tableRows.isSome → 0 ≤ row → row < (tableNumRows table : Int) →
      ((tableRowAt table row).tableCells = none ∨ col < 0 ∨
          col ≥ (rowNumCols (tableRowAt table row) : Int)) →
      getCellElement table row col =
        .error (colErrMsg col row (rowNumCols (tableRowAt table row)))) := by
  refine ⟨?_, ?_, ?_⟩
  · intro h
    unfold getTableElement
    rw [if_pos h]
  · intro h
    unfold getCellElement
    rw [if_pos]
    rcases h with h | h
    · exact Or.inl (by simp [h])
    · exact Or.inr h
  · intro hsome hge hlt h
    unfold getCellElement
    rw [if_neg, if_pos]
    · rcases h with h | h
      · exact Or.inl (by simp [h])
      · exact Or.inr h
    · push_neg
      refine ⟨by simp [Option.isNone_iff_eq_none]; cases htr : table.tableRows with
        | none => simp [htr] at hsome
        | some _ => simp, hge, hlt⟩

/-- Claim C3 witness: Requesting row 5 of a 3-row table raises the bounds error
reporting that the table has 3 rows; requesting table 2 of a one-table body
raises the table-index error reporting one table. -/
theorem accessors_raise_bounds_errors_witness :
    getCellElement { tableRows := some [{}, {}, {}] } 5 0 =
      .error "Row 5 out of range. Table has 3 rows (0-indexed)." ∧
    getTableElement [{ table := some {} }] 2 =
      .error "Table index 2 out of range. Document has 1 table(s) (0-indexed)." := by
  constructor
  · have h :=
      (accessors_raise_bounds_errors [] 0 { tableRows := some [{}, {}, {}] } 5 0).2.1
        (by right; right; decide)
    rw [h]
    rfl
  · have h :=
      (accessors_raise_bounds_errors [{ table := some {} }] 2 {} 0 0).1
        (by right; decide)
    rw [h]
    rfl

/-- Claim C8: Phase B locates the just-created table by selecting (the first)
table element whose startIndex lies within the tolerance window
`[insertIndex - 1, insertIndex + rows * columns * 3]` of the pending fill: a
located element belongs to the table list and its startIndex is inside the
window; if no element's startIndex is inside the window, none is located; if
some element qualifies, one is located. -/
theorem locatePendingTable_window (tables : List StructuralElement)
    (fill : PendingTableFill) :
    (∀ t, locatePendingTable tables fill = some t →
      t ∈ tables ∧ ∃ si, t.startIndex = some si ∧
        fill.insertIndex - 1 ≤ si ∧
        si ≤ fill.insertIndex + fill.rows * fill.columns * 3) ∧
    ((∀ t ∈ tables, tableInWindow fill t = false) →
      locatePendingTable tables fill = none) ∧
    (∀ t ∈ tables, tableInWindow fill t = true →
      ∃ u, locatePendingTable tables fill = some u) := by
  refine ⟨?_, ?_, ?_⟩
  · intro t ht
    refine ⟨List.mem_of_find?_eq_some ht, ?_⟩
    have hp := List.find?_some ht
    unfold tableInWindow at hp
    cases hsi : t.startIndex with
    | none => rw [hsi] at hp; cases hp
    | some si =>
      rw [hsi] at hp
      exact ⟨si, rfl, by simpa using (of_decide_eq_true hp)⟩
  · intro h
    unfold locatePendingTable
    exact List.find?_eq_none.mpr (fun t ht => by simp [h t ht])
  · intro t ht hp
    have : (tables.find? (tableInWindow fill)).isSome :=
      List.find?_isSome.mpr ⟨t, ht, hp⟩
    rcases Option.isSome_iff_exists.mp this with ⟨u, hu⟩
    exact ⟨u, hu⟩

/-- Claim C8 witness: A table at startIndex 100 is located for a pending
2-by-2 fill recorded at insertIndex 99 (window `[98, 111]`), and the located
element's startIndex lies in the window. -/
theorem locatePendingTable_window_witness :
    ∃ si, (100 : Int) = si ∧ (99 : Int) - 1 ≤ si ∧ si ≤ 99 + 2 * 2 * 3 := by
  have h :=
    (locatePendingTable_window [{ startIndex := some 100, table := some {} }]
      { insertIndex := 99, data := [], rows := 2, columns := 2, hasBoldHeaders := false }).1
      { startIndex := some 100, table := some {} } (by decide)
  rcases h.2 with ⟨si, hsi, h1, h2⟩
  exact ⟨si, by cases hsi; rfl, h1, h2⟩

/-- Claim C10: A pending fill whose table cannot be located inside the tolerance
window is skipped entirely and the loop continues with the remaining fills;
when no fill can be located, the whole pass still succeeds, reporting every
fill as skipped and raising no error. -/
theorem fillPendingTables_skips_unlocated (bodyContent : List StructuralElement)
    (fill : PendingTableFill) (rest fills : List PendingTableFill) :
    (locatePendingTable (extractTableElements bodyContent) fill = none →
      processPendingFills bodyContent (fill :: rest) =
        (processPendingFills bodyContent rest).map
          (fun out => FillOutcome.skipped fill :: out)) ∧
    ((∀ f ∈ fills, locatePendingTable (extractTableElements bodyContent) f = none) →
      processPendingFills bodyContent fills = .ok (fills.map FillOutcome.skipped)) := by
  constructor
  · intro h
    simp only [processPendingFills, h]
  · intro h
    induction fills with
    | nil => rfl
    | cons f fs ih =>
      have hf := h f (List.mem_cons_self f fs)
      have hfs := ih (fun g hg => h g (List.mem_cons_of_mem f hg))
      simp only [processPendingFills, hf, hfs, Except.map, List.map_cons]

/-- The body used by the C10 witness: one table element at startIndex 4. -/
def c10Body : List StructuralElement := [{ startIndex := some 4, table := some {} }]

/-- The fill used by the C10 witness: recorded far away from every table. -/
def c10Fill : PendingTableFill :=
  { insertIndex := 1000, data := [["A"]], rows := 1, columns := 1, hasBoldHeaders := false }

/-- Claim C10 witness: A fill at insertIndex 1000 has no table of the one-table
body (startIndex 4) in its window, so the one-fill pass succeeds with the fill
skipped. -/
theorem fillPendingTables_skips_unlocated_witness :
    processPendingFills c10Body [c10Fill] = .ok [FillOutcome.skipped c10Fill] :=
  (fillPendingTables_skips_unlocated c10Body c10Fill [] [c10Fill]).2 (by decide)

theorem executeMarkdownWithTables_total (convert : String → MarkdownConversionResult) :
    ∀ (fuel : Nat) (depth : Nat) (markdown : String), 11 - depth = fuel →
      executeMarkdownWithTables convert markdown depth = .error recursionLimitMsg ∨
        ∃ counts, executeMarkdownWithTables convert markdown depth = .ok counts := by
  intro fuel
  induction fuel with
  | zero =>
    intro depth markdown hfuel
    have hd : depth > 10 := by omega
    left
    unfold executeMarkdownWithTables
    rw [if_pos hd]
  | succ n ih =>
    intro depth markdown hfuel
    by_cases hd : depth > 10
    · left
      unfold executeMarkdownWithTables
      rw [if_pos hd]
    · unfold executeMarkdownWithTables
      rw [if_neg hd]
      cases hpost : (convert markdown).postTableContent with
      | none => exact Or.inr ⟨_, rfl⟩
      | some post =>
        by_cases hempty : post = ""
        · subst hempty
          simp only [hpost]
          exact Or.inr ⟨_, rfl⟩
        · simp only [hpost]
          rw [if_neg hempty]
          rcases ih (depth + 1) post (by omega) with hrec | ⟨counts, hrec⟩
          · rw [hrec]; exact Or.inl rfl
          · obtain ⟨o, t⟩ := counts
            rw [hrec]
            exact Or.inr ⟨_, rfl⟩

/-- Claim C7: The multi-phase markdown orchestrator always terminates with a
value: it recurses into a new phase only when truthy trailing content remains
(no trailing content yields the current phase's counts with no recursive
call); every run either succeeds or raises the user-facing recursion-limit
error — the only error the recursion itself introduces; a call past depth 10
raises that limit error immediately, and a call at depth 10 that still has
trailing content surfaces it as well. -/
theorem executeMarkdownWithTables_terminates (convert : String → MarkdownConversionResult)
    (markdown : String) (depth : Nat) :
    (executeMarkdownWithTables convert markdown depth = .error recursionLimitMsg ∨
      ∃ counts, executeMarkdownWithTables convert markdown depth = .ok counts) ∧
    (depth ≤ 10 →
      ((convert markdown).postTableContent = none ∨
        (convert markdown).postTableContent = some "") →
      executeMarkdownWithTables convert markdown depth =
        .ok ((convert markdown).requests.length,
             (convert markdown).pendingTableFills.length)) ∧
    (depth > 10 →
      executeMarkdownWithTables convert markdown depth = .error recursionLimitMsg) ∧
    (∀ post, depth = 10 → (convert markdown).postTableContent = some post → post ≠ "" →
      executeMarkdownWithTables convert markdown depth = .error recursionLimitMsg) := by
  refine ⟨executeMarkdownWithTables_total convert (11 - depth) depth markdown rfl, ?_, ?_, ?_⟩
  · intro hd hpost
    unfold executeMarkdownWithTables
    rw [if_neg (by omega)]
    rcases hpost with h | h
    · rw [h]
    · simp only [h, if_true]
  · intro hd
    unfold executeMarkdownWithTables
    rw [if_pos hd]
  · intro post hd hpost hne
    subst hd
    have h11 : executeMarkdownWithTables convert post (10 + 1) = .error recursionLimitMsg := by
      unfold executeMarkdownWithTables
      rw [if_pos (by omega)]
    unfold executeMarkdownWithTables
    rw [if_neg (by omega)]
    simp only [hpost]
    rw [if_neg hne, h11]

/-- The converter oracle of the C7 witness: every input longer than one
character hands back its tail as trailing content, so recursion keeps going. -/
def c7Convert : String → MarkdownConversionResult := fun s =>
  if s.length > 1 then
    { requests := [], pendingTableFills := [], postTableContent := some (s.drop 1) }
  else
    { requests := [], pendingTableFills := [] }

/-- Claim C7 witness: A no-trailing-content input at depth 0 returns its counts
with no recursion; a call already past depth 10 errors immediately; a call at
depth 10 whose conversion still leaves trailing content surfaces the
recursion-limit error. -/
theorem executeMarkdownWithTables_terminates_witness :
    executeMarkdownWithTables c7Convert "a" 0 = .ok (0, 0) ∧
    executeMarkdownWithTables c7Convert "a" 11 = .error recursionLimitMsg ∧
    executeMarkdownWithTables c7Convert "ab" 10 = .error recursionLimitMsg := by
  refine ⟨?_, ?_, ?_⟩
  · exact (executeMarkdownWithTables_terminates c7Convert "a" 0).2.1 (by omega)
      (Or.inl (by decide))
  · exact (executeMarkdownWithTables_terminates c7Convert "a" 11).2.2.1 (by omega)
  · exact (executeMarkdownWithTables_terminates c7Convert "ab" 10).2.2.2 "b" rfl
      (by decide) (by decide)

/-- Claim C5: For paragraph blocks restored (`restoreParagraphBatch`) or copied
(`copyParagraphBatch`) starting at offset `S`, the computed start offset of
the `n`-th block equals `S` plus the sum over all prior blocks of
(concatenated run text length + 1 for the terminating newline) — independent
of the blocks' styling, which the offset walk never consults. -/
theorem paragraphStartOffsets_spec (S : Nat) (paras : List ParagraphContent)
    (n : Nat) (h : n < paras.length) :
    (paragraphStartOffsets S paras).getD n 0 =
      S + ((paras.take n).map (fun pd => (paraFullText pd).length + 1)).sum := by
  induction paras generalizing S n with
  | nil => simp at h
  | cons pd rest ih =>
    cases n with
    | zero => simp [paragraphStartOffsets]
    | succ m =>
      have hm : m < rest.length := by simpa using h
      calc (paragraphStartOffsets S (pd :: rest)).getD (m + 1) 0
          = (paragraphStartOffsets (S + (paraFullText pd).length + 1) rest).getD m 0 := by
            simp [paragraphStartOffsets]
        _ = S + (paraFullText pd).length + 1
              + ((rest.take m).map (fun q => (paraFullText q).length + 1)).sum :=
            ih _ m hm
        _ = S + (((pd :: rest).take (m + 1)).map
              (fun q => (paraFullText q).length + 1)).sum := by
            simp [List.take_cons, List.sum_cons]
            omega

/-- Claim C5 witness: Three blocks of text lengths 2, 0, 4 starting at offset 7
get start offsets 7, 10, 11: the third block starts at `7 + (2+1) + (0+1)`. -/
theorem paragraphStartOffsets_spec_witness :
    (paragraphStartOffsets 7
      [{ runs := [⟨"ab", none⟩], imageInfo := [] },
       { runs := [], imageInfo := [] },
       { runs := [⟨"cdef", none⟩], imageInfo := [] }]).getD 2 0 = 11 := by
  have h := paragraphStartOffsets_spec 7
    [{ runs := [⟨"ab", none⟩], imageInfo := [] },
     { runs := [], imageInfo := [] },
     { runs := [⟨"cdef", none⟩], imageInfo := [] }] 2 (by decide)
  rw [h]
  rfl

theorem evictOldest_eq_drop (l : List DocumentSnapshot) :
    evictOldest l = l.drop (l.length - MAX_SNAPSHOTS) := by
  by_cases h : l.length > MAX_SNAPSHOTS
  · cases l with
    | nil => simp [MAX_SNAPSHOTS] at h
    | cons a t =>
      unfold evictOldest
      rw [dif_pos h]
      have ht := evictOldest_eq_drop t
      simp only [List.tail_cons] at *
      rw [ht]
      have hlen : (a :: t).length - MAX_SNAPSHOTS = (t.length - MAX_SNAPSHOTS) + 1 := by
        simp only [List.length_cons] at h ⊢
        omega
      rw [hlen, List.drop_succ_cons]
  · unfold evictOldest
    rw [dif_neg h]
    have : l.length - MAX_SNAPSHOTS = 0 := by omega
    rw [this, List.drop_zero]
termination_by l.length
decreasing_by simp only [List.length_cons]; omega

theorem foldl_createSnapshotPure_undo (snaps : List DocumentSnapshot) :
    ∀ st : SnapshotStack, st.undoStack.length ≤ MAX_SNAPSHOTS →
      (snaps.foldl createSnapshotPure st).undoStack =
        (st.undoStack ++ snaps).drop
          ((st.undoStack.length + snaps.length) - MAX_SNAPSHOTS) := by
  induction snaps with
  | nil =>
    intro st hst
    simp only [MAX_SNAPSHOTS] at hst
    have hz : st.undoStack.length - MAX_SNAPSHOTS = 0 := by
      simp only [MAX_SNAPSHOTS]
      omega
    simp [hz]
  | cons s rest ih =>
    intro st hst
    simp only [MAX_SNAPSHOTS] at hst
    rw [List.foldl_cons]
    have hcreate : (createSnapshotPure st s).undoStack =
        (st.undoStack ++ [s]).drop (st.undoStack.length + 1 - MAX_SNAPSHOTS) := by
      unfold createSnapshotPure
      rw [evictOldest_eq_drop]
      simp
    have hlen : (createSnapshotPure st s).undoStack.length ≤ MAX_SNAPSHOTS := by
      rw [hcreate, List.length_drop]
      simp only [List.length_append, List.length_cons, List.length_nil, MAX_SNAPSHOTS]
      omega
    rw [ih (createSnapshotPure st s) hlen, hcreate]
    have hsplit : ((st.undoStack ++ [s]).drop
          (st.undoStack.length + 1 - MAX_SNAPSHOTS)) ++ rest =
        ((st.undoStack ++ [s]) ++ rest).drop
          (st.undoStack.length + 1 - MAX_SNAPSHOTS) :=
      (List.drop_append_of_le_length
        (by simp only [List.length_append, List.length_cons, List.length_nil,
          MAX_SNAPSHOTS]; omega)).symm
    rw [hsplit]
    rw [List.drop_drop, List.append_assoc, List.singleton_append]
    congr 1
    rw [List.length_drop]
    simp only [List.length_append, List.length_cons, List.length_nil, MAX_SNAPSHOTS]
    omega

theorem foldl_createSnapshotPure_redo (snaps : List DocumentSnapshot)
    (hne : snaps ≠ []) (st : SnapshotStack) :
    (snaps.foldl createSnapshotPure st).redoStack = [] := by
  induction snaps generalizing st with
  | nil => exact absurd rfl hne
  | cons s rest ih =>
    rw [List.foldl_cons]
    cases rest with
    | nil => rfl
    | cons r rs => exact ih (by simp) _

theorem lookup_append_of_some {α β : Type} [DecidableEq α] (m : List (α × β))
    (x : α × β) (d : α) (s : β) (h : m.lookup d = some s) :
    (m ++ [x]).lookup d = some s := by
  induction m with
  | nil => simp [List.lookup] at h
  | cons p rest ih =>
    obtain ⟨a, b⟩ := p
    by_cases hd : d = a
    · subst hd
      simp only [List.cons_append, List.lookup, beq_self_eq_true] at h ⊢
      exact h
    · have hbeq : (d == a) = false := beq_eq_false_iff_ne.mpr hd
      simp only [List.cons_append, List.lookup, hbeq] at h ⊢
      exact ih h

/-- Claim C4: The per-document undo/redo stacks obey the snapshot discipline:
`createSnapshot` pushes the captured snapshot (it becomes the most recent undo
entry) and unconditionally clears the redo stack; `undo` on an empty undo
stack fails with the empty-history error, and otherwise moves exactly one
entry — the current live state is appended to the redo stack and exactly the
most recent snapshot is popped off the undo stack and returned for replay;
after `MAX_SNAPSHOTS + 1 = 11` creates from fresh stacks the oldest snapshot
has been evicted (the undo stack is exactly the 10 later snapshots) and its id
no longer appears in the `list()` entries; `list()` returns one entry per
stacked snapshot and, at the stack-map level, changes no existing document's
stacks. -/
theorem snapshotStacks_discipline (st : SnapshotStack) (snap current : DocumentSnapshot)
    (snaps : List DocumentSnapshot) (m : StackMap) (documentId : String) :
    ((createSnapshotPure st snap).redoStack = [] ∧
     (createSnapshotPure st snap).undoStack.getLast? = some snap) ∧
    (st.undoStack = [] → undoLastChangePure st current = .error undoEmptyMsg) ∧
    (st.undoStack ≠ [] → ∃ last, st.undoStack.getLast? = some last ∧
      undoLastChangePure st current =
        .ok ({ undoStack := st.undoStack.dropLast,
               redoStack := st.redoStack ++ [current] }, last)) ∧
    (snaps.length = MAX_SNAPSHOTS + 1 →
      (snaps.foldl createSnapshotPure ⟨[], []⟩).undoStack = snaps.tail) ∧
    (snaps.length = MAX_SNAPSHOTS + 1 →
      ∀ s0, snaps.head? = some s0 →
        s0.id ∉ snaps.tail.map DocumentSnapshot.id →
        s0.id ∉ (listSnapshotsPure
          (snaps.foldl createSnapshotPure ⟨[], []⟩)).map SnapshotEntry.id) ∧
    ((listSnapshotsPure st).length = st.undoStack.length + st.redoStack.length) ∧
    (∀ d s, m.lookup d = some s → ((listSnapshotsMap m documentId).1).lookup d = some s) := by
  have hfold : snaps.length = MAX_SNAPSHOTS + 1 →
      (snaps.foldl createSnapshotPure ⟨[], []⟩).undoStack = snaps.tail := by
    intro hlen
    have h := foldl_createSnapshotPure_undo snaps ⟨[], []⟩ (by simp [MAX_SNAPSHOTS])
    simp only [List.nil_append, List.length_nil, Nat.zero_add] at h
    rw [h, hlen]
    simp [MAX_SNAPSHOTS, List.drop_one]
  refine ⟨⟨rfl, ?_⟩, ?_, ?_, hfold, ?_, ?_, ?_⟩
  · unfold createSnapshotPure
    rw [evictOldest_eq_drop,
      List.drop_append_of_le_length
        (by simp only [List.length_append, List.length_cons, List.length_nil,
          MAX_SNAPSHOTS]; omega)]
    exact List.getLast?_concat _
  · intro h
    unfold undoLastChangePure
    rw [h]
    rfl
  · intro h
    cases hl : st.undoStack.getLast? with
    | none => exact absurd (List.getLast?_eq_none_iff.mp hl) h
    | some last =>
      refine ⟨last, rfl, ?_⟩
      unfold undoLastChangePure
      rw [hl]
  · intro hlen s0 hs0 hnotin
    have hundo := hfold hlen
    have hredo : (snaps.foldl createSnapshotPure ⟨[], []⟩).redoStack = [] :=
      foldl_createSnapshotPure_redo snaps (by intro hc; rw [hc] at hlen; simp at hlen) _
    unfold listSnapshotsPure
    rw [hundo, hredo]
    simp only [List.map_nil, List.append_nil, List.map_map, List.mem_map]
    rintro ⟨x, hx, hid⟩
    exact hnotin (List.mem_map.mpr ⟨x, hx, hid⟩)
  · simp [listSnapshotsPure]
  · intro d s h
    unfold listSnapshotsMap getStack
    cases hm : m.lookup documentId with
    | some _ => exact h
    | none => exact lookup_append_of_some m _ d s h

/-- A distinctly-labelled snapshot for the C4 witness. -/
def c4Snap (n : Nat) : DocumentSnapshot :=
  { id := toString n, documentId := "doc", timestamp := (n : Int), label := "snap",
    body := [], inlineObjects := [] }

/-- Claim C4 witness: On concrete stacks: a create clears a non-empty redo stack
and lands the new snapshot on top of the undo stack; undo on empty stacks
raises the empty-history error; undo on a two-entry undo stack moves exactly
the most recent entry; after 11 creates from fresh stacks the undo stack holds
exactly snapshots 1..10 and snapshot 0's id is gone from `list()`. -/
theorem snapshotStacks_discipline_witness :
    (createSnapshotPure ⟨[c4Snap 1], [c4Snap 2]⟩ (c4Snap 3)).redoStack = [] ∧
    (createSnapshotPure ⟨[c4Snap 1], [c4Snap 2]⟩ (c4Snap 3)).undoStack.getLast? =
      some (c4Snap 3) ∧
    undoLastChangePure ⟨[], []⟩ (c4Snap 9) = .error undoEmptyMsg ∧
    undoLastChangePure ⟨[c4Snap 1, c4Snap 2], [c4Snap 3]⟩ (c4Snap 9) =
      .ok (⟨[c4Snap 1], [c4Snap 3, c4Snap 9]⟩, c4Snap 2) ∧
    (((List.range 11).map c4Snap).foldl createSnapshotPure ⟨[], []⟩).undoStack =
      ((List.range 11).map c4Snap).tail ∧
    (c4Snap 0).id ∉ (listSnapshotsPure
      (((List.range 11).map c4Snap).foldl createSnapshotPure ⟨[], []⟩)).map
        SnapshotEntry.id := by
  have h1 := (snapshotStacks_discipline ⟨[c4Snap 1], [c4Snap 2]⟩ (c4Snap 3) (c4Snap 9)
    [] [] "doc").1
  have h2 := (snapshotStacks_discipline ⟨[], []⟩ (c4Snap 3) (c4Snap 9) [] [] "doc").2.1 rfl
  have h3 := (snapshotStacks_discipline ⟨[c4Snap 1, c4Snap 2], [c4Snap 3]⟩ (c4Snap 3)
    (c4Snap 9) [] [] "doc").2.2.1 (by simp)
  have h4 := (snapshotStacks_discipline ⟨[], []⟩ (c4Snap 3) (c4Snap 9)
    ((List.range 11).map c4Snap) [] "doc").2.2.2.1 (by rfl)
  have h5 := (snapshotStacks_discipline ⟨[], []⟩ (c4Snap 3) (c4Snap 9)
    ((List.range 11).map c4Snap) [] "doc").2.2.2.2.1 (by rfl) (c4Snap 0) (by rfl)
    (by decide)
  rcases h3 with ⟨last, hlast, hok⟩
  refine ⟨h1.1, h1.2, h2, ?_, h4, h5⟩
  have : last = c4Snap 2 := by
    rw [show ([c4Snap 1, c4Snap 2].getLast? = some (c4Snap 2)) from rfl] at hlast
    cases hlast
    rfl
  rw [this] at hok
  exact hok

/-- A run produces an `updateTextStyle` operation exactly when it carries a
style record with at least one deviating attribute and nonempty text. -/
def runProducesStyleOp (r : FormattedRun) : Bool :=
  (match r.style with
    | some s => hasAnyStyleAttr s
    | none => false) && decide (0 < r.text.length)

/-- A paragraph block produces an `updateParagraphStyle` operation exactly
when its named style is truthy and not `NORMAL_TEXT`. -/
def paragraphProducesStyleOp (pd : ParagraphContent) : Bool :=
  match pd.namedStyle with
  | some st => st ≠ "" && st ≠ "NORMAL_TEXT"
  | none => false

theorem runStyleRequestsFrom_length (offset : Int) (runs : List FormattedRun) :
    (runStyleRequestsFrom offset runs).length = (runs.filter runProducesStyleOp).length := by
  induction runs generalizing offset with
  | nil => rfl
  | cons run rest ih =>
    simp only [runStyleRequestsFrom, List.length_append, ih, List.filter_cons]
    cases hs : run.style with
    | none => simp [runProducesStyleOp, hs]
    | some st =>
      by_cases ht : 0 < run.text.length
      · by_cases ha : hasAnyStyleAttr st
        · simp [runProducesStyleOp, hs, ht, ha, buildUpdateTextStyleRequest]
          omega
        · simp [runProducesStyleOp, hs, ht, ha, buildUpdateTextStyleRequest]
      · simp [runProducesStyleOp, hs, ht]

theorem paraStyleRequestsOf_length (offset : Nat) (paras : List ParagraphContent) :
    (paraStyleRequestsOf offset paras).length =
      (paras.filter paragraphProducesStyleOp).length := by
  induction paras generalizing offset with
  | nil => rfl
  | cons pd rest ih =>
    simp only [paraStyleRequestsOf, List.length_append, ih, List.filter_cons]
    cases hs : pd.namedStyle with
    | none => simp [paragraphProducesStyleOp, hs]
    | some st =>
      by_cases hne : st ≠ "" ∧ st ≠ "NORMAL_TEXT"
      · simp only [hs]
        rw [if_pos hne]
        simp [paragraphProducesStyleOp, hs, hne.1, hne.2]
        omega
      · simp only [hs]
        rw [if_neg hne]
        rw [Decidable.not_and_iff_or_not] at hne
        rcases hne with h | h
        · simp only [ne_eq, Decidable.not_not] at h
          simp [paragraphProducesStyleOp, hs, h]
        · simp only [ne_eq, Decidable.not_not] at h
          simp [paragraphProducesStyleOp, hs, h]

theorem extractRunStyle_snd (ts : Option TextStyle) :
    (extractRunStyle ts).2 = hasAnyStyleAttr (extractRunStyle ts).1 := by
  cases ts with
  | none => decide
  | some t => rfl

theorem extractParaElements_style_deviates (io : InlineObjects) :
    ∀ (elems : List ParagraphElement) (off : Nat) (r : FormattedRun),
      r ∈ (extractParaElements io elems off).1 →
      ∀ s, r.style = some s → hasAnyStyleAttr s = true := by
  intro elems
  induction elems with
  | nil => intro off r hr; cases hr
  | cons pe rest ih =>
    intro off r hr s hs
    unfold extractParaElements at hr
    cases hbr : imageBranchId pe with
    | some objId =>
      simp only [hbr] at hr
      cases hres : resolveInlineImage io objId with
      | some v =>
        obtain ⟨u, w, h⟩ := v
        simp only [hres] at hr
        exact ih off r hr s hs
      | none =>
        simp only [hres] at hr
        exact ih off r hr s hs
    | none =>
      simp only [hbr] at hr
      cases htc : textBranchContent pe with
      | none =>
        simp only [htc] at hr
        exact ih off r hr s hs
      | some c0 =>
        simp only [htc] at hr
        by_cases hc : (if c0.endsWith "\n" then c0.dropRight 1 else c0) = ""
        · rw [if_pos hc] at hr
          exact ih off r hr s hs
        · rw [if_neg hc] at hr
          simp only [List.mem_cons] at hr
          rcases hr with h | h
          · subst h
            simp only at hs
            by_cases hsr : (extractRunStyle (pe.textRun.bind TextRun.textStyle)).2
            · rw [if_pos hsr] at hs
              cases hs
              rw [← extractRunStyle_snd]
              exact hsr
            · rw [if_neg hsr] at hs
              cases hs
          · exact ih _ r h s hs

/-- Claim C6: Idempotent empty-style elision, in the cell-format builder and the
paragraph-restore builder alike: the number of `updateTextStyle` operations
equals the number of runs carrying a style record with at least one deviating
attribute and nonempty text, so a run with no style record, or one whose
record deviates in no attribute, never produces an operation (all-default runs
yield the empty request list); the number of `updateParagraphStyle` operations
equals the number of blocks whose named style is truthy and not `NORMAL_TEXT`,
so `NORMAL_TEXT` or absent named styles never produce one; and the extraction
step attaches a style record only when it deviates in some attribute. -/
theorem defaultStyle_elision (cellStart : Int) (runs : List FormattedRun)
    (offset : Nat) (paraData : List ParagraphContent)
    (paragraph : Paragraph) (inlineObjects : InlineObjects) :
    ((buildFormattedCellFormatRequests cellStart runs).length =
      (runs.filter runProducesStyleOp).length) ∧
    ((∀ r ∈ runs, ∀ s, r.style = some s → hasAnyStyleAttr s = false) →
      buildFormattedCellFormatRequests cellStart runs = []) ∧
    ((runFormatRequestsOf offset paraData).length =
      ((paraData.map (fun pd => (pd.runs.filter runProducesStyleOp).length)).sum)) ∧
    ((∀ pd ∈ paraData, ∀ r ∈ pd.runs, ∀ s, r.style = some s →
        hasAnyStyleAttr s = false) →
      runFormatRequestsOf offset paraData = []) ∧
    ((paraStyleRequestsOf offset paraData).length =
      (paraData.filter paragraphProducesStyleOp).length) ∧
    ((∀ pd ∈ paraData, pd.namedStyle = none ∨ pd.namedStyle = some "NORMAL_TEXT") →
      paraStyleRequestsOf offset paraData = []) ∧
    (∀ r ∈ (extractParagraphFormattedContent paragraph inlineObjects).runs,
      ∀ s, r.style = some s → hasAnyStyleAttr s = true) := by
  have hfilter : ∀ rs : List FormattedRun,
      (∀ r ∈ rs, ∀ s, r.style = some s → hasAnyStyleAttr s = false) →
      rs.filter runProducesStyleOp = [] := by
    intro rs h
    rw [List.filter_eq_nil]
    intro r hr
    unfold runProducesStyleOp
    cases hs : r.style with
    | none => simp
    | some s => simp [h r hr s hs]
  have hsum : ∀ (off : Nat) (pds : List ParagraphContent),
      (runFormatRequestsOf off pds).length =
        ((pds.map (fun pd => (pd.runs.filter runProducesStyleOp).length)).sum) := by
    intro off pds
    induction pds generalizing off with
    | nil => rfl
    | cons pd rest ih =>
      simp only [runFormatRequestsOf, List.length_append, List.map_cons, List.sum_cons,
        runStyleRequestsFrom_length, ih]
  refine ⟨?_, ?_, hsum offset paraData, ?_, paraStyleRequestsOf_length offset paraData,
      ?_, ?_⟩
  · exact runStyleRequestsFrom_length cellStart runs
  · intro h
    have := runStyleRequestsFrom_length cellStart runs
    rw [hfilter runs h] at this
    exact List.length_eq_zero.mp (by simpa using this)
  · intro h
    apply List.length_eq_zero.mp
    rw [hsum offset paraData]
    have : paraData.map (fun pd => (pd.runs.filter runProducesStyleOp).length) =
        paraData.map (fun _ => 0) := by
      apply List.map_congr_left
      intro pd hpd
      rw [hfilter pd.runs (h pd hpd)]
      rfl
    rw [this]
    simp
  · intro h
    apply List.length_eq_zero.mp
    rw [paraStyleRequestsOf_length]
    have : paraData.filter paragraphProducesStyleOp = [] := by
      rw [List.filter_eq_nil]
      intro pd hpd
      unfold paragraphProducesStyleOp
      rcases h pd hpd with hn | hn <;> simp [hn]
    rw [this]
    rfl
  · intro r hr s hs
    unfold extractParagraphFormattedContent at hr
    cases he : paragraph.elements with
    | none => rw [he] at hr; cases hr
    | some elems =>
      rw [he] at hr
      exact extractParaElements_style_deviates inlineObjects elems 0 r hr s hs

/-- Claim C6 witness: A bold run produces one operation while an all-default run
(no record, or an empty record) produces none: two runs, only the styled one
counted; a `NORMAL_TEXT` paragraph and an unstyled one produce no
paragraph-style operations; extracting a paragraph whose run has an
all-default text style attaches no style record that fails the deviation
check. -/
theorem defaultStyle_elision_witness :
    (buildFormattedCellFormatRequests 5
      [⟨"plain", none⟩, ⟨"empty", some {}⟩, ⟨"bold", some { bold := some true }⟩]).length = 1 ∧
    buildFormattedCellFormatRequests 5 [⟨"plain", none⟩, ⟨"empty", some {}⟩] = [] ∧
    paraStyleRequestsOf 1
      [{ runs := [], imageInfo := [], namedStyle := some "NORMAL_TEXT" },
       { runs := [], imageInfo := [], namedStyle := none }] = [] := by
  refine ⟨?_, ?_, ?_⟩
  · rw [(defaultStyle_elision 5
      [⟨"plain", none⟩, ⟨"empty", some {}⟩, ⟨"bold", some { bold := some true }⟩]
      1 [] {} []).1]
    decide
  · exact (defaultStyle_elision 5 [⟨"plain", none⟩, ⟨"empty", some {}⟩]
      1 [] {} []).2.1 (by decide)
  · exact (defaultStyle_elision 5 [] 1
      [{ runs := [], imageInfo := [], namedStyle := some "NORMAL_TEXT" },
       { runs := [], imageInfo := [], namedStyle := none }] {} []).2.2.2.2.2.1
      (by decide)

/-- Claim C9: Restore/copy phase 3 inserts images one per remote call in
descending order of absolute offset: the executed sequence is a permutation of
the recorded image inserts, pairwise descending in `index`; every recorded
image of every block appears with absolute offset `blockStart + recorded
in-paragraph offset`; and for every failure oracle the loop attempts every
image in that order — a single failed insertion never aborts the remaining
ones (one loop entry per image, one request per call). -/
theorem imageInserts_desc_and_resilient (blocks : List (ParagraphContent × Nat))
    (fails : ImageInsert → Bool) :
    (sortedImageInserts blocks).Perm (rawImageInserts blocks) ∧
    List.Pairwise (fun a b => b.index ≤ a.index) (sortedImageInserts blocks) ∧
    (∀ pd start, (pd, start) ∈ blocks → ∀ img ∈ pd.imageInfo,
      (⟨img.uri, img.width, img.height, img.offset, start + img.offset⟩ : ImageInsert)
        ∈ rawImageInserts blocks) ∧
    ((runImageInsertLoop fails (sortedImageInserts blocks)).map Prod.fst =
      sortedImageInserts blocks) ∧
    ((runImageInsertLoop fails (sortedImageInserts blocks)).length =
      (rawImageInserts blocks).length) := by
  have hperm : (sortedImageInserts blocks).Perm (rawImageInserts blocks) :=
    List.perm_insertionSort _ _
  refine ⟨hperm, ?_, ?_, runImageInsertLoop_attempts_all fails _, ?_⟩
  · exact List.sorted_insertionSort _ _
  · intro pd start hmem img himg
    unfold rawImageInserts
    rw [List.mem_flatten]
    refine ⟨pd.imageInfo.map (fun i =>
      ⟨i.uri, i.width, i.height, i.offset, start + i.offset⟩), ?_, ?_⟩
    · exact List.mem_map.mpr ⟨(pd, start), hmem, rfl⟩
    · exact List.mem_map.mpr ⟨img, himg, rfl⟩
  · rw [show ∀ l : List ImageInsert, (runImageInsertLoop fails l).length = l.length
      from ?_]
    · exact hperm.length_eq
    · intro l
      induction l with
      | nil => rfl
      | cons a t ih => simp [runImageInsertLoop, ih]

/-- Claim C9 witness: Two blocks at starts 20 and 5 with recorded offsets 1, 3
and 2: the prepared inserts land at absolute offsets 21, 23, 7 and execute in
order 23, 21, 7 — and with an oracle failing every uri, all three are still
attempted in that order. -/
theorem imageInserts_desc_and_resilient_witness :
    (⟨"u2", none, none, 3, 23⟩ : ImageInsert) ∈ rawImageInserts
      [({ runs := [], imageInfo := [⟨"u1", none, none, 1⟩, ⟨"u2", none, none, 3⟩] }, 20),
       ({ runs := [], imageInfo := [⟨"u3", none, none, 2⟩] }, 5)] ∧
    (runImageInsertLoop (fun _ => true) (sortedImageInserts
      [({ runs := [], imageInfo := [⟨"u1", none, none, 1⟩, ⟨"u2", none, none, 3⟩] }, 20),
       ({ runs := [], imageInfo := [⟨"u3", none, none, 2⟩] }, 5)])).map Prod.fst =
      [⟨"u2", none, none, 3, 23⟩, ⟨"u1", none, none, 1, 21⟩, ⟨"u3", none, none, 2, 7⟩] := by
  constructor
  · exact (imageInserts_desc_and_resilient
      [({ runs := [], imageInfo := [⟨"u1", none, none, 1⟩, ⟨"u2", none, none, 3⟩] }, 20),
       ({ runs := [], imageInfo := [⟨"u3", none, none, 2⟩] }, 5)] (fun _ => true)).2.2.1
      { runs := [], imageInfo := [⟨"u1", none, none, 1⟩, ⟨"u2", none, none, 3⟩] } 20
      (by decide) ⟨"u2", none, none, 3⟩ (by decide)
  · rw [(imageInserts_desc_and_resilient
      [({ runs := [], imageInfo := [⟨"u1", none, none, 1⟩, ⟨"u2", none, none, 3⟩] }, 20),
       ({ runs := [], imageInfo := [⟨"u3", none, none, 2⟩] }, 5)] (fun _ => true)).2.2.2.1]
    decide

/-- Recognizes `insertText` requests. -/
def isInsertText : Request → Bool
  | .insertText _ _ => true
  | _ => false

/-- Claim C1, amended: Cell text replacement: when the cell has at least one
text-bearing paragraph, the request list is one delete per qualifying range,
in descending order of start offset (a stable sort of the ranges, pairwise
descending and a permutation of them), followed — when the new text is
nonempty — by exactly one insert at the lowest original start offset (the
minimum of the qualifying start offsets); an empty replacement text emits the
deletes only. Every qualifying range comes from a paragraph with a qualifying
text run, so image-only paragraphs receive no delete; and when the cell has no
text-bearing paragraph, no delete is emitted and the single insert (emitted
even for empty text) is placed at the cell's first-content offset. -/
theorem buildEditCellRequests_spec (bodyContent : List StructuralElement)
    (tableIndex row col : Int) (newText : String)
    (tableEl : StructuralElement) (cell : TableCell)
    (hTab : getTableElement bodyContent tableIndex = .ok tableEl)
    (hCell : getCellElement (tableEl.table.getD default) row col = .ok cell) :
    (∀ r0 rest, getCellTextRanges cell = r0 :: rest →
      (buildEditCellRequests bodyContent tableIndex row col newText =
        .ok ((sortRangesDesc (r0 :: rest)).map (fun r =>
            Request.deleteContentRange r.startIndex r.endIndex)
          ++ if newText = "" then []
             else [Request.insertText (minStartFrom r0.startIndex rest) newText])) ∧
      List.Pairwise (fun a b => b.startIndex ≤ a.startIndex)
        (sortRangesDesc (r0 :: rest)) ∧
      (sortRangesDesc (r0 :: rest)).Perm (r0 :: rest) ∧
      minStartFrom r0.startIndex rest ∈ (r0 :: rest).map TextIndexRange.startIndex ∧
      (∀ r ∈ r0 :: rest, minStartFrom r0.startIndex rest ≤ r.startIndex)) ∧
    (getCellTextRanges cell = [] → ∀ ip, getCellInsertionPoint cell = .ok ip →
      buildEditCellRequests bodyContent tableIndex row col newText =
        .ok [Request.insertText ip newText]) ∧
    (∀ rng ∈ getCellTextRanges cell, ∃ contentEl,
      contentEl ∈ cell.content.getD [] ∧ elementHasTextRun contentEl = true ∧
      textRangeOfElement contentEl = some rng) := by
  refine ⟨?_, ?_, ?_⟩
  · intro r0 rest h
    refine ⟨?_, List.sorted_insertionSort _ _, List.perm_insertionSort _ _, ?_, ?_⟩
    · simp only [buildEditCellRequests, hTab, hCell, h]
      by_cases hempty : newText = ""
      · rw [if_pos hempty, if_pos hempty, List.append_nil]
      · rw [if_neg hempty, if_neg hempty]
    · rcases minStartFrom_mem r0.startIndex rest with hm | hm
      · rw [hm]
        exact List.mem_map.mpr ⟨r0, List.mem_cons_self _ _, rfl⟩
      · rcases List.mem_map.mp hm with ⟨r, hr, hre⟩
        exact List.mem_map.mpr ⟨r, List.mem_cons_of_mem _ hr, hre⟩
    · intro r hr
      rcases List.mem_cons.mp hr with hr | hr
      · subst hr
        exact minStartFrom_le_init _ _
      · exact minStartFrom_le_mem _ _ r hr
  · intro h ip hip
    simp only [buildEditCellRequests, hTab, hCell, h, hip]
  · intro rng hrng
    unfold getCellTextRanges at hrng
    rcases List.mem_filterMap.mp hrng with ⟨contentEl, hmem, hsome⟩
    refine ⟨contentEl, hmem, ?_, hsome⟩
    by_cases htb : elementHasTextRun contentEl
    · exact htb
    · unfold textRangeOfElement at hsome
      rw [if_neg htb] at hsome
      cases hsome

/-- The cell of the C1 witness: two text paragraphs at `[5,11)` and `[11,17)`. -/
def c1Para : Paragraph :=
  { elements := some [{ textRun := some { content := some "hello\n" } }] }

def c1Cell : TableCell :=
  { content := some [{ startIndex := some 5, endIndex := some 11, paragraph := some c1Para },
                     { startIndex := some 11, endIndex := some 17, paragraph := some c1Para }] }

def c1El : StructuralElement :=
  { startIndex := some 4, endIndex := some 19,
    table := some { tableRows := some [{ tableCells := some [c1Cell] }] } }

/-- Claim C1 witness: Replacing the two-paragraph cell's text with `"X"` deletes
the ranges `[11,16)` then `[5,10)` (descending) and inserts once at the lowest
original offset 5. -/
theorem buildEditCellRequests_spec_witness :
    buildEditCellRequests [c1El] 0 0 0 "X" =
      .ok [Request.deleteContentRange 11 16, Request.deleteContentRange 5 10,
           Request.insertText 5 "X"] := by
  have h := (buildEditCellRequests_spec [c1El] 0 0 0 "X" c1El c1Cell rfl rfl).1
    ⟨5, 10⟩ [⟨11, 16⟩] rfl
  rw [h.1]
  rfl

/-- The single-text-paragraph cell of the C1 counterexample. -/
def c1xCell : TableCell :=
  { content := some [{ startIndex := some 5, endIndex := some 11, paragraph := some c1Para }] }

def c1xEl : StructuralElement :=
  { startIndex := some 4, endIndex := some 13,
    table := some { tableRows := some [{ tableCells := some [c1xCell] }] } }

/-- Claim C1 counterexample: For a cell with a text-bearing paragraph and an
*empty* replacement text, the built request list is the delete alone — it is
not "one delete per qualifying range followed by exactly one insert of the new
text at the lowest original start offset", because no insert request is
emitted at all (`if (newText)` guards the insert). -/
theorem buildEditCellRequests_counterexample :
    buildEditCellRequests [c1xEl] 0 0 0 "" = .ok [Request.deleteContentRange 5 10] ∧
    getCellTextRanges c1xCell = [⟨5, 10⟩] ∧
    ([Request.deleteContentRange 5 10].filter isInsertText).length = 0 :=
  ⟨rfl, rfl, rfl⟩

/-- Claim C2, amended: `buildBatchEditCellRequests` computes one request group
per `(row, col, text)` edit, each from that edit alone (`buildCellGroup`),
tags it with a sort index that equals the cell's computed insertion offset
(for a nonempty edit text the group's final request is the insert at exactly
that offset), and returns the concatenation of the whole groups ordered by
descending — non-increasing, ties kept in input order — sort index; requests
of different cells are never interleaved. -/
theorem buildBatchEditCellRequests_spec (bodyContent : List StructuralElement)
    (tableIndex : Int) (edits : List CellEdit) (tableEl : StructuralElement)
    (groups : List CellGroup)
    (hTab : getTableElement bodyContent tableIndex = .ok tableEl)
    (hGroups : buildCellGroups (tableEl.table.getD default) edits = .ok groups) :
    buildBatchEditCellRequests bodyContent tableIndex edits =
      .ok ((sortGroupsDesc groups).map (fun g => g.requests)).flatten ∧
    List.Pairwise (fun a b => b.sortIndex ≤ a.sortIndex) (sortGroupsDesc groups) ∧
    (sortGroupsDesc groups).Perm groups ∧
    groups.length = edits.length ∧
    (∀ e g, buildCellGroup (tableEl.table.getD default) e = .ok g → e.text ≠ "" →
      g.requests.getLast? = some (Request.insertText g.sortIndex e.text)) := by
  refine ⟨?_, List.sorted_insertionSort _ _, List.perm_insertionSort _ _,
    buildCellGroups_ok_length _ edits groups hGroups, ?_⟩
  · simp only [buildBatchEditCellRequests, hTab, hGroups]
  · intro e g hg hne
    unfold buildCellGroup at hg
    cases hCell : getCellElement (tableEl.table.getD default) e.row e.col with
    | error err => simp only [hCell] at hg; exact Except.noConfusion hg
    | ok cell =>
      simp only [hCell] at hg
      cases hranges : getCellTextRanges cell with
      | nil =>
        simp only [hranges] at hg
        cases hip : getCellInsertionPoint cell with
        | error err => simp only [hip] at hg; exact Except.noConfusion hg
        | ok ip =>
          simp only [hip, if_neg hne, Except.ok.injEq] at hg
          subst hg
          rfl
      | cons r0 rest =>
        simp only [hranges, if_neg hne, Except.ok.injEq] at hg
        subst hg
        exact List.getLast?_concat _

/-- The one-row two-text-cell table body of the C2 witness. -/
def c2CellB : TableCell :=
  { content := some [{ startIndex := some 12, endIndex := some 18, paragraph := some c1Para }] }

def c2Body : List StructuralElement :=
  [{ startIndex := some 4, endIndex := some 20,
     table := some { tableRows := some [{ tableCells := some [c1xCell, c2CellB] }] } }]

/-- Claim C2 witness: Two edits to distinct offsets: cell-group requests for the
two cells of a one-row two-cell table are emitted as whole groups in
descending sort-index order. -/
theorem buildBatchEditCellRequests_spec_witness :
    buildBatchEditCellRequests c2Body 0 [⟨0, 0, "a"⟩, ⟨0, 1, "b"⟩] =
      .ok [Request.deleteContentRange 12 17, Request.insertText 12 "b",
           Request.deleteContentRange 5 10, Request.insertText 5 "a"] := by
  have h := (buildBatchEditCellRequests_spec c2Body 0 [⟨0, 0, "a"⟩, ⟨0, 1, "b"⟩]
    (c2Body.getD 0 default)
    [⟨5, [Request.deleteContentRange 5 10, Request.insertText 5 "a"]⟩,
     ⟨12, [Request.deleteContentRange 12 17, Request.insertText 12 "b"]⟩]
    rfl rfl).1
  rw [h]
  rfl

/-- Claim C2 counterexample: Two edits addressing the *same* cell produce two
whole nonempty groups with *equal* sort index (both 5), so the flattened
output — both groups present, one after the other — is not ordered by
*strictly* descending sort index; descending holds only non-strictly, with the
tie kept in input order. -/
theorem buildBatchEditCellRequests_strict_counterexample :
    buildCellGroup { tableRows := some [{ tableCells := some [c1xCell] }] } ⟨0, 0, "a"⟩ =
      .ok ⟨5, [Request.deleteContentRange 5 10, Request.insertText 5 "a"]⟩ ∧
    buildCellGroup { tableRows := some [{ tableCells := some [c1xCell] }] } ⟨0, 0, "b"⟩ =
      .ok ⟨5, [Request.deleteContentRange 5 10, Request.insertText 5 "b"]⟩ ∧
    buildBatchEditCellRequests [c1xEl] 0 [⟨0, 0, "a"⟩, ⟨0, 0, "b"⟩] =
      .ok ([Request.deleteContentRange 5 10, Request.insertText 5 "a"] ++
           [Request.deleteContentRange 5 10, Request.insertText 5 "b"]) :=
  ⟨rfl, rfl, rfl⟩

end GDocs
